import Mathlib

/-
Verification of the KQL filter pipeline of go-ecslog against its
natural-language specification.

The definitions below are shallow embeddings of the Go source:
  * internal/jsonutils/lookup.go   (LookupValue)
  * internal/kqlog/term.go         (term, newTerm, Get{Num,Bool}Val, MatchStringBytes)
  * internal/kqlog/lex.go          (the lexer, from the version present in src)
  * internal/kqlog/parse.go        (the parser state machine, shunting-yard staging)
  * internal/kqlog/rpn.go          (rpnStep variants and their exec methods)
  * internal/kqlog/kqlog.go        (Filter.Match)
  * internal/ecslog/ecslog.go      (LogLevelLess, isECSLoggingRecord)

Conventions of the embedding:
  * Go `*fastjson.Value` (which may be nil) is modelled as `Option JsonValue`;
    a nil pointer is `none`.
  * Go panics (`lg.Fatalf`, `log.Panicf`, popping an empty stack) are modelled
    by an `Option`-valued result: `none` means the Go code panicked/aborted.
  * Stacks (the parser's `stagedOps` token stack and the evaluator's
    `boolStack`): Go appends at the slice end and pops from the end; here the
    stack top is the list head.
  * The lexer's goroutine/channel pair is modelled as the function producing
    the full emitted token list; the parser consumes that list (look-ahead
    and backup become list head operations).
  * JSON numbers (Go float64) are modelled as `Rat`; no claim below exercises
    floating-point rounding.
  * String byte positions are tracked as UTF-8 byte offsets, like the Go code.
-/

set_option autoImplicit false

namespace Ecslog

/-! ## JSON value model (fastjson values) -/

/-- A parsed JSON value: the tagged variant over null, bool, number, string,
array and object.  The object form is an ordered list of key/value pairs,
as in fastjson. -/
inductive JsonValue where
  | null
  | bool (b : Bool)
  | num (q : Rat)
  | str (s : String)
  | arr (items : List JsonValue)
  | obj (kvs : List (String × JsonValue))
  deriving Repr

/-- Key lookup in a JSON object: the first pair whose key equals `key`
(models `fastjson.Object.Get`). -/
def objGet : List (String × JsonValue) → String → Option JsonValue
  | [], _ => none
  | (k, v) :: rest, key => if k = key then some v else objGet rest key

/-- Models Go `strings.Join(parts, ".")`. -/
def dotJoin : List String → String
  | [] => ""
  | s :: rest =>
    match rest with
    | [] => s
    | _ :: _ => s ++ "." ++ dotJoin rest

/-- Models Go `strings.Split(s, ".")` (used for field paths). -/
def splitOnDot (s : String) : List String :=
  go s.toList []
where
  go : List Char → List Char → List String
    | [], acc => [String.mk acc.reverse]
    | c :: cs, acc =>
      if c = '.' then String.mk acc.reverse :: go cs []
      else go cs (c :: acc)

/-! ## LookupValue (internal/jsonutils/lookup.go)

`LookupValue(obj, lookup)` resolves a dotted path that may appear nested,
dotted, or as any mixed prefix.  The Go function recurses on strictly shorter
suffixes of `lookup`; the embedding makes that termination measure explicit
with a fuel argument (`lookupValue` supplies more fuel than the recursion can
consume, so the fuel-exhaustion branch is unreachable). -/

/-- The prefix-trying loop of `LookupValue` (the `for i := 1; i <= len(lookup)`
loop): try `obj[dotJoin pre]` with the remaining suffix `suf`, then move one
more segment from `suf` into `pre`.  `next` is the recursive `LookupValue`
call. -/
def tryPrefixes (next : Option JsonValue → List String → Option JsonValue)
    (kvs : List (String × JsonValue)) :
    List String → List String → Option JsonValue
  | pre, [] => next (objGet kvs (dotJoin pre)) []
  | pre, s :: suf' =>
    match next (objGet kvs (dotJoin pre)) (s :: suf') with
    | some v => some v
    | none => tryPrefixes next kvs (pre ++ [s]) suf'

/-- Fueled core of `LookupValue`.  On a nil object return nil; on an empty
lookup return the object itself; on a non-object return nil; with one name
use direct key lookup; otherwise try increasingly long dotted prefixes. -/
def lookupGo : Nat → Option JsonValue → List String → Option JsonValue
  | _, none, _ => none
  | _, some o, [] => some o
  | 0, some _, _ :: _ => none
  | Nat.succ fuel, some o, s :: rest =>
    match o with
    | .obj kvs =>
      match rest with
      | [] => objGet kvs s
      | _ :: _ => tryPrefixes (fun o' l' => lookupGo fuel o' l') kvs [s] rest
    | _ => none

/-- `LookupValue` from internal/jsonutils/lookup.go. -/
def lookupValue (obj : Option JsonValue) (lookup : List String) : Option JsonValue :=
  lookupGo (lookup.length + 1) obj lookup

/-! ## Term model (internal/kqlog term.go) -/

/-- The opening curly brace character (written via its code point to keep
brace characters out of the source text). -/
def lbrace : Char := Char.ofNat 123

/-- The closing curly brace character. -/
def rbrace : Char := Char.ofNat 125

/-- A term in a parsed KQL filter expression.  `Val` is the canonicalized
string (for wildcard terms, the anchored regex pattern); `Wildcard` is true
iff an unescaped `*` appeared.  `chunks` models the compiled regex
`regexpVal`: the raw literal chunks between unescaped wildcards (the pattern
`Val` is exactly `^` + quoteMeta chunk₀ + `.*` + quoteMeta chunk₁ + … + `$`).
The Go struct also caches the num/bool coercions; those caches are pure
memoization of `GetNumVal`/`GetBoolVal`, modelled here as functions of `Val`. -/
structure term where
  Val : String
  Wildcard : Bool
  chunks : List String
  deriving Repr, DecidableEq

/-- Numeric value of digit characters (most significant first). -/
def digitsVal (ds : List Char) : Nat :=
  ds.foldl (fun n c => n * 10 + (c.toNat - 48)) 0

/-- Models `strconv.ParseFloat(s, 64)` for ordinary decimal/scientific
notation, using exact rationals in place of float64.  (Go additionally
accepts forms such as "Inf", "NaN", hex floats and underscores; no claim
below exercises numeric literals at all.) -/
def parseRatNum (s : String) : Option Rat :=
  let cs := s.toList
  let (neg, cs1) :=
    match cs with
    | '+' :: r => (false, r)
    | '-' :: r => (true, r)
    | _ => (false, cs)
  let intDs := cs1.takeWhile Char.isDigit
  let cs2 := cs1.dropWhile Char.isDigit
  let (fracDs, cs3) :=
    match cs2 with
    | '.' :: r => (r.takeWhile Char.isDigit, r.dropWhile Char.isDigit)
    | _ => ([], cs2)
  if intDs = [] ∧ fracDs = [] then none
  else
    let expOpt : Option Int :=
      match cs3 with
      | [] => some 0
      | 'e' :: r =>
        let (eneg, r1) :=
          match r with
          | '+' :: rr => (false, rr)
          | '-' :: rr => (true, rr)
          | _ => (false, r)
        let eDs := r1.takeWhile Char.isDigit
        if eDs = [] ∨ r1.dropWhile Char.isDigit ≠ [] then none
        else some (if eneg then -(digitsVal eDs : Int) else (digitsVal eDs : Int))
      | 'E' :: r =>
        let (eneg, r1) :=
          match r with
          | '+' :: rr => (false, rr)
          | '-' :: rr => (true, rr)
          | _ => (false, r)
        let eDs := r1.takeWhile Char.isDigit
        if eDs = [] ∨ r1.dropWhile Char.isDigit ≠ [] then none
        else some (if eneg then -(digitsVal eDs : Int) else (digitsVal eDs : Int))
      | _ => none
    match expOpt with
    | none => none
    | some e =>
      let mant : Int := (digitsVal (intDs ++ fracDs) : Int)
      let mant := if neg then -mant else mant
      some ((mant : Rat) * (10 : Rat) ^ (e - (fracDs.length : Int)))

/-- `term.GetNumVal`: the term as a number, if it parses as one.  The Go
method memoizes this in the struct; for a given source string the result is
deterministic, so it is a function of `Val`. -/
def term.GetNumVal (t : term) : Option Rat :=
  parseRatNum t.Val

/-- `term.GetBoolVal`: "true" and "false" are the only boolean terms. -/
def term.GetBoolVal (t : term) : Option Bool :=
  if t.Val = "true" then some true
  else if t.Val = "false" then some false
  else none

/-- The characters `regexp.QuoteMeta` escapes. -/
def regexMetaChars : List Char :=
  ['\\', '.', '+', '*', '?', '(', ')', '|', '[', ']', lbrace, rbrace, '^', '$']

/-- Models Go `regexp.QuoteMeta`. -/
def quoteMeta (s : String) : String :=
  String.mk (s.toList.foldr
    (fun c acc => if c ∈ regexMetaChars then '\\' :: c :: acc else c :: acc) [])

/-- The whitespace escapes recognized in unquoted literals. -/
def whitespaceFromEscapeChar (c : Char) : Option Char :=
  match c with
  | 'n' => some '\n'
  | 't' => some '\t'
  | 'r' => some '\r'
  | _ => none

/-- The special characters whose backslash escape yields the character
itself, in unquoted literals. -/
def unquotedSpecialChars : List Char :=
  ['\\', '(', ')', ':', '<', '>', '"', '*', lbrace, rbrace]

/-- The scanning loop of `newTerm`: processes the raw literal, expanding
escapes and splitting at unescaped `*` wildcards.  `chunk` is the current
literal chunk, `chunks` the finished raw chunks, `b` the regex pattern built
so far, `wild` whether an unescaped `*` was seen.  Returns `none` exactly
where the Go code calls `lg.Fatalf` (a literal ending in a lone backslash,
which the lexer never produces). -/
def newTermAux : List Char → List Char → List String → String → Bool → Option term
  | [], chunk, chunks, b, wild =>
    if wild then
      let cstr := String.mk chunk
      some { Val := "^" ++ (b ++ quoteMeta cstr) ++ "$", Wildcard := true,
             chunks := chunks ++ [cstr] }
    else
      some { Val := b ++ String.mk chunk, Wildcard := false, chunks := [] }
  | ['\\', 'o', 'r'], chunk, chunks, b, wild =>
    newTermAux [] (chunk ++ ['o', 'r']) chunks b wild
  | ['\\', 'a', 'n', 'd'], chunk, chunks, b, wild =>
    newTermAux [] (chunk ++ ['a', 'n', 'd']) chunks b wild
  | ['\\', 'n', 'o', 't'], chunk, chunks, b, wild =>
    newTermAux [] (chunk ++ ['n', 'o', 't']) chunks b wild
  | ['\\'], _, _, _, _ => none
  | '\\' :: c2 :: rest, chunk, chunks, b, wild =>
    match whitespaceFromEscapeChar c2 with
    | some w => newTermAux rest (chunk ++ [w]) chunks b wild
    | none =>
      if c2 ∈ unquotedSpecialChars then newTermAux rest (chunk ++ [c2]) chunks b wild
      else newTermAux (c2 :: rest) (chunk ++ ['\\']) chunks b wild
  | '*' :: rest, chunk, chunks, b, _ =>
    newTermAux rest [] (chunks ++ [String.mk chunk])
      (b ++ quoteMeta (String.mk chunk) ++ ".*") true
  | c :: rest, chunk, chunks, b, wild =>
    newTermAux rest (chunk ++ [c]) chunks b wild

/-- `newTerm`: create a `term` from an unquoted literal string, handling the
KQL escaping rules and wildcards. -/
def newTerm (val : String) : Option term :=
  newTermAux val.toList [] [] "" false

/-- Matching of the remaining chunks of an anchored wildcard pattern
`…(.* chunkᵢ)*$` against the remaining subject: each chunk must occur in
order, with arbitrary gaps, and the final chunk must end the subject. -/
def gapMatch : List (List Char) → List Char → Bool
  | [], s => s.isEmpty
  | c :: rest, s =>
    (c.isPrefixOf s && gapMatch rest (s.drop c.length)) ||
      match s with
      | [] => false
      | _ :: s' => gapMatch (c :: rest) s'
termination_by pats s => (pats.length, s.length)

/-- Matching semantics of the compiled anchored regex of a wildcard term:
`^chunk₀.*chunk₁.*…chunkₖ$` (non-chunk text quoted by `quoteMeta`). -/
def chunksMatch (chunks : List String) (s : String) : Bool :=
  match chunks with
  | [] => s = ""
  | c :: rest =>
    c.toList.isPrefixOf s.toList && gapMatch (rest.map String.toList) (s.toList.drop c.length)

/-- `term.MatchStringBytes`: regex match when `Wildcard`, else byte equality
with `Val`. -/
def term.MatchStringBytes (t : term) (s : String) : Bool :=
  if t.Wildcard then chunksMatch t.chunks s else t.Val == s

/-! ## LogLevelLess (internal/ecslog/ecslog.go) -/

/-- ASCII lowercasing of a string (Go uses `strings.ToLower`; all level
names involved are ASCII, where the two agree). -/
def strLower (s : String) : String :=
  String.mk (s.toList.map Char.toLower)

/-- The best-effort log level ordering table `levelValFromName`. -/
def levelValFromName : List (String × Nat) :=
  [("trace", 10), ("debug", 20), ("info", 30), ("warn", 40), ("warning", 40),
   ("error", 50), ("dpanic", 60), ("panic", 70), ("fatal", 80)]

/-- `LogLevelLess` returns true iff level1 is less than level2, by the
best-effort table; unknown names (on either side) give false; names are
compared case-insensitively. -/
def LogLevelLess (level1 level2 : String) : Bool :=
  match levelValFromName.lookup (strLower level1) with
  | none => false
  | some val1 =>
    match levelValFromName.lookup (strLower level2) with
    | none => false
    | some val2 => decide (val1 < val2)

/-! ## Lexer (internal/kqlog lex.go, version in src)

The Go lexer runs as a goroutine emitting tokens over a channel until it
reaches EOF or emits an Error token (both terminal).  The embedding produces
the whole emitted token list.  This version of the lexer rejects `"` with
"do not yet support quoted literals"; the quoted-literal state of the newer
lexer is modelled separately below for claim C9. -/

/-- Token types (`tokType`).  `quotedLiteral` is referenced by the repo's
lex_test.go; the lexer version in src never emits it, but the spec-modelled
quoted-literal scanner below does. -/
inductive TokType where
  | error
  | eof
  | unquotedLiteral
  | quotedLiteral
  | or
  | and
  | not
  | openParen
  | closeParen
  | colon
  | gt
  | gte
  | lt
  | lte
  deriving Repr, DecidableEq

/-- A lexer token: type, byte offset in the input, and value text.  Error
tokens carry the message in `val`. -/
structure Tok where
  typ : TokType
  pos : Nat
  val : String
  deriving Repr, DecidableEq

/-- Build a token. -/
def mkTok (typ : TokType) (pos : Nat) (val : String) : Tok :=
  { typ := typ, pos := pos, val := val }

/-- `nameFromTokType`: printable token type names (used in error messages). -/
def tokTypeName : TokType → String
  | .error => "error"
  | .eof => "EOF"
  | .unquotedLiteral => "unquoted literal"
  | .quotedLiteral => "quoted literal"
  | .or => "or"
  | .and => "and"
  | .not => "not"
  | .openParen => "("
  | .closeParen => ")"
  | .colon => ":"
  | .gt => ">"
  | .gte => ">="
  | .lt => "<"
  | .lte => "<="

/-- `token.String()`:  EOF and errors print specially, the special tokens
print their text, and literals print quoted. -/
def tokString (t : Tok) : String :=
  match t.typ with
  | .eof => "EOF"
  | .error => "<error: " ++ t.val ++ ">"
  | .unquotedLiteral => "\"" ++ t.val ++ "\""
  | .quotedLiteral => "\"" ++ t.val ++ "\""
  | _ => t.val

/-- UTF-8 encoded size of a character, in bytes. -/
def charUtf8Size (c : Char) : Nat :=
  if c.val < 128 then 1
  else if c.val < 2048 then 2
  else if c.val < 65536 then 3
  else 4

/-- UTF-8 encoded size of a character list, in bytes. -/
def utf8Len (cs : List Char) : Nat :=
  (cs.map charUtf8Size).sum

/-- `isSpace` from lex.go. -/
def isSpace (c : Char) : Bool :=
  c == ' ' || c == '\t' || c == '\r' || c == '\n'

/-- `isDelimitingSpecialChar` from lex.go: the KQL special characters that
end an unquoted literal (`*` is not delimiting). -/
def isDelimitingSpecialChar (c : Char) : Bool :=
  c == '(' || c == ')' || c == ':' || c == '<' || c == '>' || c == '"' ||
    c == lbrace || c == rbrace

/-- The scanning loop of `lexUnquotedLiteralOrBoolOp`: collect characters
until whitespace, a delimiting special character, or end of input.  A
backslash takes the following character into the literal; a backslash at end
of input is the "unterminated character escape" error (`none`). -/
def scanLiteral : List Char → Option (List Char × List Char)
  | [] => some ([], [])
  | c :: cs =>
    if isSpace c then some ([], c :: cs)
    else if c = '\\' then
      match cs with
      | [] => none
      | c2 :: cs' => (scanLiteral cs').map (fun pr => ('\\' :: c2 :: pr.1, pr.2))
    else if isDelimitingSpecialChar c then some ([], c :: cs)
    else (scanLiteral cs).map (fun pr => (c :: pr.1, pr.2))

/-- The token-classification step of `lexUnquotedLiteralOrBoolOp`: a
collected literal of more than 3 bytes is always an unquoted literal;
otherwise it is lowercased and compared with "or"/"and"/"not" to emit the
corresponding operator token; anything else is an unquoted literal.  The
emitted token keeps the original span text. -/
def emitLiteral (pos : Nat) (span : List Char) : Tok :=
  if utf8Len span > 3 then mkTok .unquotedLiteral pos (String.mk span)
  else
    let low := String.mk (span.map Char.toLower)
    if low = "or" then mkTok .or pos (String.mk span)
    else if low = "and" then mkTok .and pos (String.mk span)
    else if low = "not" then mkTok .not pos (String.mk span)
    else mkTok .unquotedLiteral pos (String.mk span)

/-- The main lexer loop (`lexInsideKQL` driven by `run`), with fuel: each
step consumes at least one character, so `input length + 1` fuel always
suffices.  `pos` is the byte offset, `depth` the parenthesis nesting depth. -/
def runLex : Nat → List Char → Nat → Nat → List Tok
  | 0, _, _, _ => []
  | Nat.succ fuel, cs, pos, depth =>
    match cs with
    | [] =>
      match depth with
      | 0 => [mkTok .eof pos ""]
      | 1 => [mkTok .error pos "unclosed open parenthesis"]
      | d => [mkTok .error pos ("unclosed open parentheses (" ++ toString d ++ ")")]
    | c :: rest =>
      if isSpace c then runLex fuel rest (pos + charUtf8Size c) depth
      else if c = '(' then
        mkTok .openParen pos "(" :: runLex fuel rest (pos + 1) (depth + 1)
      else if c = ')' then
        mkTok .closeParen pos ")" ::
          (if depth = 0 then [mkTok .error (pos + 1) "unmatched close parenthesis"]
           else runLex fuel rest (pos + 1) (depth - 1))
      else if c = ':' then mkTok .colon pos ":" :: runLex fuel rest (pos + 1) depth
      else if c = '"' then [mkTok .error pos "do not yet support quoted literals"]
      else if c = '<' then
        match rest with
        | '=' :: rest2 => mkTok .lte pos "<=" :: runLex fuel rest2 (pos + 2) depth
        | _ => mkTok .lt pos "<" :: runLex fuel rest (pos + 1) depth
      else if c = '>' then
        match rest with
        | '=' :: rest2 => mkTok .gte pos ">=" :: runLex fuel rest2 (pos + 2) depth
        | _ => mkTok .gt pos ">" :: runLex fuel rest (pos + 1) depth
      else if c = lbrace ∨ c = rbrace then
        [mkTok .error pos ("do not support KQL nest field queries: '" ++ String.mk [c] ++ "'")]
      else if c.val = 0 then [mkTok .error pos "unrecognized character: U+0000"]
      else
        match scanLiteral (c :: rest) with
        | none => [mkTok .error pos "unterminated character escape"]
        | some (span, rest') =>
          emitLiteral pos span :: runLex fuel rest' (pos + utf8Len span) depth

/-- The full emitted token stream for a KQL input string. -/
def lexTokens (input : String) : List Tok :=
  runLex (input.toList.length + 1) input.toList 0 0

/-! ## RPN steps and evaluator (internal/kqlog rpn.go, kqlog.go) -/

/-- `LogLevelLessFn`: the host-supplied log level comparator type.  The
parser holds an `Option LogLevelLessFn` (`nil` in Go is `none`). -/
abbrev LogLevelLessFn := String → String → Bool

/-- The `rpnStep` variants from rpn.go.  The range queries retain the
comparator, as the Go structs do.  `openParen` is the parser-internal
sentinel `rpnOpenParen`; it never appears in a completed program. -/
inductive rpnStep where
  | existsQuery (field : String)
  | termsQuery (field : String) (terms : List term)
  | matchAllTermsQuery (field : String) (terms : List term)
  | defaultFieldsTermsQuery (terms : List String)
  | gtRangeQuery (field : String) (t : term) (logLevelLess : Option LogLevelLessFn)
  | gteRangeQuery (field : String) (t : term) (logLevelLess : Option LogLevelLessFn)
  | ltRangeQuery (field : String) (t : term) (logLevelLess : Option LogLevelLessFn)
  | lteRangeQuery (field : String) (t : term) (logLevelLess : Option LogLevelLessFn)
  | and
  | or
  | not
  | openParen

/-- The term loop of `rpnTermsQuery.exec`: true iff some term matches the
field value, with the per-type rules of rpn.go.  An object or array field
value matches no term (immediate false). -/
def termsLoop : List term → JsonValue → Bool
  | [], _ => false
  | t :: rest, v =>
    match v with
    | .null => if t.Val = "null" then true else termsLoop rest v
    | .obj _ => false
    | .arr _ => false
    | .str s => if t.MatchStringBytes s then true else termsLoop rest v
    | .num n =>
      match t.GetNumVal with
      | some m => if m = n then true else termsLoop rest v
      | none => termsLoop rest v
    | .bool true =>
      match t.GetBoolVal with
      | some true => true
      | _ => termsLoop rest v
    | .bool false =>
      match t.GetBoolVal with
      | some false => true
      | _ => termsLoop rest v

/-- The `FieldArrayLoop` of `rpnMatchAllTermsQuery.exec`: is the term
matched by some element of the array?  Object and array elements have no
case in the Go switch, so they match nothing. -/
def termInArray (t : term) : List JsonValue → Bool
  | [] => false
  | item :: rest =>
    match item with
    | .null => if t.Val = "null" then true else termInArray t rest
    | .str s => if t.MatchStringBytes s then true else termInArray t rest
    | .num n =>
      match t.GetNumVal with
      | some m => if m = n then true else termInArray t rest
      | none => termInArray t rest
    | .bool true =>
      match t.GetBoolVal with
      | some true => true
      | _ => termInArray t rest
    | .bool false =>
      match t.GetBoolVal with
      | some false => true
      | _ => termInArray t rest
    | _ => termInArray t rest

/-- All terms must be found in the array (`rpnMatchAllTermsQuery.exec`). -/
def allTermsInArray : List term → List JsonValue → Bool
  | [], _ => true
  | t :: rest, items => if termInArray t items then allTermsInArray rest items else false

/-- The non-log.level type switch of `rpnGtRangeQuery.exec`: string values
compare bytewise, numbers numerically when the term has a number value;
null/object/array/bool push false. -/
def gtRangeSwitch (t : term) (v : JsonValue) : Bool :=
  match v with
  | .str s => decide (t.Val < s)
  | .num n =>
    match t.GetNumVal with
    | none => false
    | some m => decide (m < n)
  | _ => false

/-- The non-log.level type switch of `rpnGteRangeQuery.exec`. -/
def gteRangeSwitch (t : term) (v : JsonValue) : Bool :=
  match v with
  | .str s => decide (t.Val ≤ s)
  | .num n =>
    match t.GetNumVal with
    | none => false
    | some m => decide (m ≤ n)
  | _ => false

/-- The non-log.level type switch of `rpnLtRangeQuery.exec`. -/
def ltRangeSwitch (t : term) (v : JsonValue) : Bool :=
  match v with
  | .str s => decide (s < t.Val)
  | .num n =>
    match t.GetNumVal with
    | none => false
    | some m => decide (n < m)
  | _ => false

/-- The non-log.level type switch of `rpnLteRangeQuery.exec`. -/
def lteRangeSwitch (t : term) (v : JsonValue) : Bool :=
  match v with
  | .str s => decide (s ≤ t.Val)
  | .num n =>
    match t.GetNumVal with
    | none => false
    | some m => decide (n ≤ m)
  | _ => false

/-- `rpnGtRangeQuery.exec`: lookup the field; absent pushes false; with a
comparator, field exactly "log.level" and a string value, `v > t` is
`less(t, v)`; otherwise the type switch applies. -/
def gtRangeExec (field : String) (t : term) (lll : Option LogLevelLessFn)
    (rec : JsonValue) : Bool :=
  match lookupValue (some rec) (splitOnDot field) with
  | none => false
  | some fieldVal =>
    match lll with
    | some less =>
      if field = "log.level" then
        match fieldVal with
        | .str s => less t.Val s
        | _ => gtRangeSwitch t fieldVal
      else gtRangeSwitch t fieldVal
    | none => gtRangeSwitch t fieldVal

/-- `rpnGteRangeQuery.exec`: the log.level special case is
`v >= t` ≡ `!less(v, t)`. -/
def gteRangeExec (field : String) (t : term) (lll : Option LogLevelLessFn)
    (rec : JsonValue) : Bool :=
  match lookupValue (some rec) (splitOnDot field) with
  | none => false
  | some fieldVal =>
    match lll with
    | some less =>
      if field = "log.level" then
        match fieldVal with
        | .str s => !(less s t.Val)
        | _ => gteRangeSwitch t fieldVal
      else gteRangeSwitch t fieldVal
    | none => gteRangeSwitch t fieldVal

/-- `rpnLtRangeQuery.exec`: the log.level special case is
`v < t` ≡ `less(v, t)`. -/
def ltRangeExec (field : String) (t : term) (lll : Option LogLevelLessFn)
    (rec : JsonValue) : Bool :=
  match lookupValue (some rec) (splitOnDot field) with
  | none => false
  | some fieldVal =>
    match lll with
    | some less =>
      if field = "log.level" then
        match fieldVal with
        | .str s => less s t.Val
        | _ => ltRangeSwitch t fieldVal
      else ltRangeSwitch t fieldVal
    | none => ltRangeSwitch t fieldVal

/-- `rpnLteRangeQuery.exec`: the log.level special case is
`v <= t` ≡ `!less(t, v)`. -/
def lteRangeExec (field : String) (t : term) (lll : Option LogLevelLessFn)
    (rec : JsonValue) : Bool :=
  match lookupValue (some rec) (splitOnDot field) with
  | none => false
  | some fieldVal =>
    match lll with
    | some less =>
      if field = "log.level" then
        match fieldVal with
        | .str s => !(less t.Val s)
        | _ => lteRangeSwitch t fieldVal
      else lteRangeSwitch t fieldVal
    | none => lteRangeSwitch t fieldVal

/-- The evaluator's bool stack.  Go appends/pops at the slice end; here the
top is the list head. -/
abbrev boolStack := List Bool

/-- One `rpnStep.exec` on the bool stack against a record.  `none` models a
Go panic: popping an empty stack, or executing the `rpnOpenParen` sentinel.
`rpnDefaultFieldsTermsQuery.exec` is not implemented in the source (it logs
a question and pushes false). -/
def rpnExec (step : rpnStep) (stack : boolStack) (rec : JsonValue) : Option boolStack :=
  match step with
  | .existsQuery field =>
    some ((lookupValue (some rec) (splitOnDot field)).isSome :: stack)
  | .termsQuery field terms =>
    match lookupValue (some rec) (splitOnDot field) with
    | none => some (false :: stack)
    | some v => some (termsLoop terms v :: stack)
  | .matchAllTermsQuery field terms =>
    match lookupValue (some rec) (splitOnDot field) with
    | none => some (false :: stack)
    | some v =>
      match v with
      | .arr items => some (allTermsInArray terms items :: stack)
      | _ => some (false :: stack)
  | .defaultFieldsTermsQuery _ => some (false :: stack)
  | .gtRangeQuery field t lll => some (gtRangeExec field t lll rec :: stack)
  | .gteRangeQuery field t lll => some (gteRangeExec field t lll rec :: stack)
  | .ltRangeQuery field t lll => some (ltRangeExec field t lll rec :: stack)
  | .lteRangeQuery field t lll => some (lteRangeExec field t lll rec :: stack)
  | .and =>
    match stack with
    | a :: b :: rest => some ((a && b) :: rest)
    | _ => none
  | .or =>
    match stack with
    | a :: b :: rest => some ((a || b) :: rest)
    | _ => none
  | .not =>
    match stack with
    | a :: rest => some ((!a) :: rest)
    | _ => none
  | .openParen => none

/-- Execute the steps in order (the loop of `Filter.Match`). -/
def execSteps : List rpnStep → JsonValue → boolStack → Option boolStack
  | [], _, stack => some stack
  | step :: rest, rec, stack =>
    match rpnExec step stack rec with
    | none => none
    | some stack' => execSteps rest rec stack'

/-- A compiled filter: the ordered RPN step list. -/
structure Filter where
  steps : List rpnStep

/-- `Filter.Match`: an empty filter matches every record; otherwise run the
steps on an empty stack; a final stack of size ≠ 1 is the fatal
"invalid KQL execution: stack length is not 1" branch (modelled `none`,
like any panic during execution). -/
def Filter.Match (f : Filter) (rec : JsonValue) : Option Bool :=
  if f.steps.isEmpty then some true
  else
    match execSteps f.steps rec [] with
    | none => none
    | some [b] => some b
    | some _ => none

/-! ## Parser (internal/kqlog parse.go)

The parser is a state machine over the token stream, maintaining a
`stagedOps` stack of boolean-operator tokens and open-paren sentinels
(shunting-yard).  The embedding threads the parser struct explicitly; the
one-token look-ahead/backup of the Go code becomes list-head manipulation.
`parseErrorTok`/`errorfAt` produce `ParseResult.err msg`; the Go error
additionally appends a two-line context (the KQL string and a caret), which
no claim inspects and is omitted here.  `none` models the `lg.Fatalf`
internal-panic paths and fuel exhaustion (the fuel passed by `parse` always
suffices). -/

/-- The outcome of parsing: a compiled filter or a parse error message. -/
inductive ParseResult where
  | ok (f : Filter)
  | err (msg : String)

/-- The parser state (struct `parser` minus the lexer plumbing). -/
structure ParserSt where
  toks : List Tok
  stagedOps : List Tok
  field : Option Tok
  incompleteBoolOp : Bool
  steps : List rpnStep
  logLevelLess : Option LogLevelLessFn

/-- `opPrecedenceFromTokType`: or(1) < and(2) < not(3); like a Go map read,
a missing key yields 0. -/
def opPrecedenceFromTokType : TokType → Nat
  | .or => 1
  | .and => 2
  | .not => 3
  | _ => 0

/-- `Filter.addBoolOp`: the step for a boolean-operator token; any other
token type is the `lg.Fatalf` branch (`none`). -/
def addBoolOp : TokType → Option rpnStep
  | .and => some .and
  | .or => some .or
  | .not => some .not
  | _ => none

/-- The pop loop of `stageBoolOp`: pop staged operators of precedence ≥
`prec` into the steps, stopping at an open paren or a lower-precedence
operator. -/
def stageBoolOpAux (prec : Nat) : List Tok → List rpnStep → Option (List Tok × List rpnStep)
  | [], steps => some ([], steps)
  | top :: staged', steps =>
    if top.typ = .openParen then some (top :: staged', steps)
    else if opPrecedenceFromTokType top.typ ≥ prec then
      match addBoolOp top.typ with
      | none => none
      | some s => stageBoolOpAux prec staged' (steps ++ [s])
    else some (top :: staged', steps)

/-- `parser.stageBoolOp`: pop per precedence, then push this operator. -/
def stageBoolOp (opTok : Tok) (staged : List Tok) (steps : List rpnStep) :
    Option (List Tok × List rpnStep) :=
  (stageBoolOpAux (opPrecedenceFromTokType opTok.typ) staged steps).map
    (fun pr => (opTok :: pr.1, pr.2))

/-- Result of the close-paren pop loop. -/
inductive PopRes where
  | perr (msg : String)
  | pok (staged : List Tok) (steps : List rpnStep)

/-- The close-paren loop of `parseAfterQuery`: pop staged ops into the steps
up to and including the matching open paren; an exhausted stack is the
"unmatched close parenthesis" error. -/
def popToOpen : List Tok → List rpnStep → Option PopRes
  | [], _ => some (.perr "unmatched close parenthesis")
  | opTok :: staged', steps =>
    if opTok.typ = .openParen then some (.pok staged' steps)
    else
      match addBoolOp opTok.typ with
      | none => none
      | some s => popToOpen staged' (steps ++ [s])

/-- The final pop loop of `parseEOFTok`: append all remaining staged ops. -/
def popAllOps : List Tok → List rpnStep → Option (List rpnStep)
  | [], steps => some steps
  | opTok :: staged', steps =>
    match addBoolOp opTok.typ with
    | none => none
    | some s => popAllOps staged' (steps ++ [s])

/-- The term-collecting loop of the default-fields branch of
`parseBeforeQuery`: consume contiguous unquoted literals (raw strings),
leaving the first non-literal token in the stream (the `backup`). -/
def collectDefaultTerms : List Tok → List String → List String × List Tok
  | [], terms => (terms, [])
  | t :: ts, terms =>
    if t.typ = .unquotedLiteral then collectDefaultTerms ts (terms ++ [t.val])
    else (terms, t :: ts)

/-- The term-collecting loop of the first form of `parseTermsQuery`
(`foo:val1 val2 …`): consume contiguous unquoted literals as terms, tracking
whether any raw value is `*`. -/
def collectQueryTerms : List Tok → List term → Bool → Option (List term × Bool × List Tok)
  | [], terms, haveExists => some (terms, haveExists, [])
  | t :: ts, terms, haveExists =>
    if t.typ = .unquotedLiteral then
      match newTerm t.val with
      | none => none
      | some tm => collectQueryTerms ts (terms ++ [tm]) (haveExists || t.val == "*")
    else some (terms, haveExists, t :: ts)

/-- Result of the parenthesized value group loop. -/
inductive ParenRes where
  | perr (msg : String)
  | pok (terms : List term) (matchAll : Bool) (haveExists : Bool) (rest : List Tok)

/-- The parenthesized value group loop of `parseTermsQuery`
(`foo:(a and b …)` / `foo:(a or b …)`): alternate literal and
operator/close-paren; the first operator selects the group kind and mixing
is an error; `first` is true on the first iteration (`i == 0`). -/
def parseParenTerms : List Tok → List term → Bool → Bool → Bool → Option ParenRes
  | termTok :: rest, terms, matchAll, haveExists, first =>
    if termTok.typ ≠ .unquotedLiteral then
      some (.perr ("expected literal, got " ++ tokTypeName termTok.typ))
    else
      match newTerm termTok.val with
      | none => none
      | some tm =>
        match rest with
        | opTok :: rest2 =>
          match opTok.typ with
          | .closeParen =>
            some (.pok (terms ++ [tm]) matchAll (haveExists || termTok.val == "*") rest2)
          | .or =>
            if first then
              parseParenTerms rest2 (terms ++ [tm]) false (haveExists || termTok.val == "*") false
            else if matchAll then
              some (.perr "cannot mix 'and' and 'or' in parenthesized value group")
            else
              parseParenTerms rest2 (terms ++ [tm]) matchAll (haveExists || termTok.val == "*") false
          | .and =>
            if first then
              parseParenTerms rest2 (terms ++ [tm]) true (haveExists || termTok.val == "*") false
            else if !matchAll then
              some (.perr "cannot mix 'and' and 'or' in parenthesized value group")
            else
              parseParenTerms rest2 (terms ++ [tm]) matchAll (haveExists || termTok.val == "*") false
          | _ =>
            some (.perr ("expected ')', 'or', or 'and'; got " ++ tokTypeName opTok.typ))
        | [] => none
  | [], _, _, _, _ => none

/-- The parser state functions (`parserStateFn`). -/
inductive PFn where
  | beforeQuery
  | afterQuery
  | rangeQuery
  | termsQuery
  | errorTok
  | eofTok

/-- The parser driver (`parser.parse` looping the state functions), with
fuel: every state consumes at least one token except the two one-step
transitions into `errorTok`/`eofTok`, so `2 * tokens + 8` fuel always
suffices. -/
def runParse : Nat → PFn → ParserSt → Option ParseResult
  | 0, _, _ => none
  | Nat.succ fuel, fn, st =>
    match fn with
    | .errorTok =>
      match st.toks with
      | tok :: _ => some (.err tok.val)
      | [] => none
    | .eofTok =>
      match st.toks with
      | tok :: _ =>
        if tok.typ ≠ .eof then none
        else if st.incompleteBoolOp then some (.err "incomplete boolean operator")
        else
          match popAllOps st.stagedOps st.steps with
          | none => none
          | some steps' => some (.ok ⟨steps'⟩)
      | [] => none
    | .beforeQuery =>
      match st.toks with
      | [] => none
      | tok :: rest =>
        match tok.typ with
        | .error => runParse fuel .errorTok st
        | .eof => runParse fuel .eofTok st
        | .openParen =>
          runParse fuel .beforeQuery
            { st with toks := rest, stagedOps := tok :: st.stagedOps }
        | .not =>
          match stageBoolOp tok st.stagedOps st.steps with
          | none => none
          | some (staged', steps') =>
            runParse fuel .beforeQuery
              { st with toks := rest, stagedOps := staged', steps := steps',
                        incompleteBoolOp := true }
        | .unquotedLiteral =>
          match rest with
          | [] => none
          | tok2 :: _ =>
            match tok2.typ with
            | .error =>
              runParse fuel .errorTok { st with toks := rest, incompleteBoolOp := false }
            | .gt | .gte | .lt | .lte =>
              runParse fuel .rangeQuery
                { st with toks := rest, field := some tok, incompleteBoolOp := false }
            | .colon =>
              runParse fuel .termsQuery
                { st with toks := rest, field := some tok, incompleteBoolOp := false }
            | _ =>
              match collectDefaultTerms rest [tok.val] with
              | (terms, toks') =>
                runParse fuel .afterQuery
                  { st with toks := toks',
                            steps := st.steps ++ [.defaultFieldsTermsQuery terms],
                            incompleteBoolOp := false }
        | _ =>
          some (.err ("expecting a literal, 'not', or '('; got " ++ tokTypeName tok.typ))
    | .rangeQuery =>
      match st.toks with
      | opTok :: valTok :: rest =>
        match valTok.typ with
        | .error => runParse fuel .errorTok { st with toks := valTok :: rest }
        | .unquotedLiteral =>
          match st.field with
          | none => none
          | some fieldTok =>
            match newTerm valTok.val with
            | none => none
            | some tm =>
              let q : Option rpnStep :=
                match opTok.typ with
                | .gt => some (.gtRangeQuery fieldTok.val tm st.logLevelLess)
                | .gte => some (.gteRangeQuery fieldTok.val tm st.logLevelLess)
                | .lt => some (.ltRangeQuery fieldTok.val tm st.logLevelLess)
                | .lte => some (.lteRangeQuery fieldTok.val tm st.logLevelLess)
                | _ => none
              match q with
              | none => none
              | some q =>
                runParse fuel .afterQuery
                  { st with toks := rest, steps := st.steps ++ [q], field := none }
        | _ =>
          some (.err ("expected a literal after '" ++ tokString opTok ++ "'; got " ++
            tokTypeName valTok.typ))
      | _ => none
    | .termsQuery =>
      match st.toks with
      | _ :: tok :: rest =>
        match st.field with
        | none => none
        | some fieldTok =>
          match tok.typ with
          | .unquotedLiteral =>
            match newTerm tok.val with
            | none => none
            | some tm =>
              match collectQueryTerms rest [tm] (tok.val == "*") with
              | none => none
              | some (terms, haveExists, toks') =>
                let step : rpnStep :=
                  if haveExists then .existsQuery fieldTok.val
                  else .termsQuery fieldTok.val terms
                runParse fuel .afterQuery
                  { st with toks := toks', steps := st.steps ++ [step], field := none }
          | .openParen =>
            match parseParenTerms rest [] false false true with
            | none => none
            | some (.perr msg) => some (.err msg)
            | some (.pok terms matchAll haveExists toks') =>
              let step : rpnStep :=
                if haveExists then .existsQuery fieldTok.val
                else if matchAll then .matchAllTermsQuery fieldTok.val terms
                else .termsQuery fieldTok.val terms
              runParse fuel .afterQuery
                { st with toks := toks', steps := st.steps ++ [step], field := none }
          | _ =>
            some (.err ("expected a literal or '('; got " ++ tokTypeName tok.typ))
      | _ => none
    | .afterQuery =>
      match st.toks with
      | [] => none
      | tok :: rest =>
        match tok.typ with
        | .error => runParse fuel .errorTok st
        | .eof => runParse fuel .eofTok st
        | .closeParen =>
          if st.incompleteBoolOp then some (.err "incomplete boolean operator")
          else
            match popToOpen st.stagedOps st.steps with
            | none => none
            | some (.perr msg) => some (.err msg)
            | some (.pok staged' steps') =>
              runParse fuel .afterQuery
                { st with toks := rest, stagedOps := staged', steps := steps' }
        | .and =>
          match stageBoolOp tok st.stagedOps st.steps with
          | none => none
          | some (staged', steps') =>
            runParse fuel .beforeQuery
              { st with toks := rest, stagedOps := staged', steps := steps',
                        incompleteBoolOp := true }
        | .or =>
          match stageBoolOp tok st.stagedOps st.steps with
          | none => none
          | some (staged', steps') =>
            runParse fuel .beforeQuery
              { st with toks := rest, stagedOps := staged', steps := steps',
                        incompleteBoolOp := true }
        | _ =>
          some (.err ("expect 'and', 'or', or ')'; got " ++ tokTypeName tok.typ))

/-- `parser.parse` on a token list. -/
def parse (toks : List Tok) (logLevelLess : Option LogLevelLessFn) : Option ParseResult :=
  runParse (toks.length * 2 + 8) .beforeQuery
    { toks := toks, stagedOps := [], field := none, incompleteBoolOp := false,
      steps := [], logLevelLess := logLevelLess }

/-- `NewFilter`: compile a KQL string with an optional log level comparator. -/
def NewFilter (kql : String) (logLevelLess : Option LogLevelLessFn) : Option ParseResult :=
  parse (lexTokens kql) logLevelLess

/-! ## Record classification (internal/ecslog ecslog.go) -/

/-- Models `fastjson.Value.GetStringBytes(key)`: the value of a top-level
key, provided it is a string. -/
def getStringTop (rec : JsonValue) (key : String) : Option String :=
  match rec with
  | .obj kvs =>
    match objGet kvs key with
    | some (.str s) => some s
    | _ => none
  | _ => none

/-- `Renderer.isECSLoggingRecord`: true iff the record has the required
ecs-logging fields: string `@timestamp`, string `message`, string
`ecs.version` and string `log.level` (the dotted fields in nested or dotted
form, via `LookupValue`).  The Go method also caches `log.level` on the
Renderer; that side effect does not affect the returned classification. -/
def isECSLoggingRecord (rec : JsonValue) : Bool :=
  match getStringTop rec "@timestamp" with
  | none => false
  | some _ =>
    match getStringTop rec "message" with
    | none => false
    | some _ =>
      match lookupValue (some rec) ["ecs", "version"] with
      | some (.str _) =>
        match lookupValue (some rec) ["log", "level"] with
        | some (.str _) => true
        | _ => false
      | _ => false

/-! ## Abstract evaluation of a compiled step list

For the RPN-correctness claim the query steps are abstracted: the i-th
query step pushes the i-th value of a given assignment instead of being
evaluated against a record, while the boolean operations act on the stack
exactly as in `rpnExec`.  This quantifies over all outcomes of the
individual query steps. -/

/-- Run a step list where query steps pop their pushed value from `assign`
(in order) and `and`/`or`/`not` act as in `rpnExec`.  `none` on stack or
assignment underflow, or on the `openParen` sentinel. -/
def execAssign : List rpnStep → List Bool → boolStack → Option boolStack
  | [], _, stack => some stack
  | step :: rest, assign, stack =>
    match step with
    | .and =>
      match stack with
      | a :: b :: stack' => execAssign rest assign ((a && b) :: stack')
      | _ => none
    | .or =>
      match stack with
      | a :: b :: stack' => execAssign rest assign ((a || b) :: stack')
      | _ => none
    | .not =>
      match stack with
      | a :: stack' => execAssign rest assign ((!a) :: stack')
      | _ => none
    | .openParen => none
    | _ =>
      match assign with
      | v :: assign' => execAssign rest assign' (v :: stack)
      | [] => none

/-! ## Quoted-literal lexer state (claim C9)

Modelled from the spec: the quoted-literal lexing state of the newer lexer
(lex.go) is not present under src — the lexer version in src rejects `"`
with "do not yet support quoted literals", while the package's lex_test.go
exercises `tokTypeQuotedLiteral` tokens.  Per spec §4.3: on `"` the lexer
enters the Quoted state, consumes until the closing `"` with a backslash
taking the next byte literally, emits a QuotedLiteral token containing the
whole span including the surrounding quotes, and EOF before the closing `"`
is the "unterminated quoted literal" error; a backslash with no following
byte is the "unterminated character escape" error (the escape-at-EOF rule of
the Literal state, confirmed by the repo's lex_test.go case
"error case: unterminated escape in quoted literal"). -/

/-- Modelled from the spec: the Quoted lexer state.  `cs` is the input after
the opening `"`; `acc` the span consumed so far (initially empty).  Returns
the single token this state emits (positions play no role in the claim and
are fixed at 0). -/
def lexQuotedGo : List Char → List Char → Tok
  | [], _ => mkTok .error 0 "unterminated quoted literal"
  | c :: rest, acc =>
    if c = '"' then mkTok .quotedLiteral 0 (String.mk ('"' :: acc ++ ['"']))
    else if c = '\\' then
      match rest with
      | [] => mkTok .error 0 "unterminated character escape"
      | c2 :: rest' => lexQuotedGo rest' (acc ++ ['\\', c2])
    else lexQuotedGo rest (acc ++ [c])

/-- The body of a quoted literal as consumed by the Quoted state: a sequence
of units, each either a backslash taking the next byte literally or a plain
byte that is neither `\` nor the closing `"`. -/
inductive QBody : List Char → Prop where
  | nil : QBody []
  | esc (c : Char) (rest : List Char) : QBody rest → QBody ('\\' :: c :: rest)
  | chr (c : Char) (rest : List Char) :
      c ≠ '\\' → c ≠ '"' → QBody rest → QBody (c :: rest)

/-! ## Nesting a path partition (claim C3)

Spec-side constructor for the path-resolution property: a JSON object that
nests along the dotted chunks of a partition, with the given leaf value. -/

/-- Nest singleton objects along the chunks, keying each level by the dotted
join of its chunk; the empty partition is the leaf itself. -/
def nestChunks : List (List String) → JsonValue → JsonValue
  | [], x => x
  | c :: rest, x => .obj [(dotJoin c, nestChunks rest x)]

/-! ## Lemmas about dotted joins and the prefix-trying lookup -/

theorem dotJoin_append (a b : List String) (ha : a ≠ []) (hb : b ≠ []) :
    dotJoin (a ++ b) = dotJoin a ++ "." ++ dotJoin b := by
  induction a with
  | nil => exact absurd rfl ha
  | cons x a' ih =>
    cases a' with
    | nil =>
      cases b with
      | nil => exact absurd rfl hb
      | cons y b' => simp [dotJoin]
    | cons x2 a'' =>
      have h1 : (x2 :: a'' : List String) ≠ [] := by simp
      have ihe : dotJoin (x2 :: (a'' ++ b)) = dotJoin (x2 :: a'') ++ "." ++ dotJoin b := by
        simpa [List.cons_append] using ih h1
      simp only [List.cons_append]
      rw [show dotJoin (x :: x2 :: (a'' ++ b)) = x ++ "." ++ dotJoin (x2 :: (a'' ++ b)) from
        by simp [dotJoin]]
      rw [ihe,
        show dotJoin (x :: x2 :: a'') = x ++ "." ++ dotJoin (x2 :: a'') from by simp [dotJoin]]
      simp [String.append_assoc]

theorem dotJoin_length_lt (a b : List String) (ha : a ≠ []) (hb : b ≠ []) :
    (dotJoin a).length < (dotJoin (a ++ b)).length := by
  rw [dotJoin_append a b ha hb, String.length_append, String.length_append]
  have hdot : (("." : String)).length = 1 := rfl
  omega

theorem dotJoin_ne (a b : List String) (ha : a ≠ []) (hb : b ≠ []) :
    dotJoin a ≠ dotJoin (a ++ b) := by
  intro h
  have := dotJoin_length_lt a b ha hb
  rw [← h] at this
  omega

theorem lookupGo_none (fuel : Nat) (l : List String) : lookupGo fuel none l = none := by
  cases fuel <;> rfl

theorem lookupGo_some_nil (fuel : Nat) (o : JsonValue) :
    lookupGo fuel (some o) [] = some o := by
  cases fuel <;> rfl

/-- The prefix-trying loop on a singleton object keyed by the whole chunk:
probes with proper prefixes of the chunk miss (their dotted joins are
strictly shorter), and the probe with the full chunk hits, landing the
recursive lookup on `inner` with the remaining segments. -/
theorem tryPrefixes_nest
    (next : Option JsonValue → List String → Option JsonValue)
    (hnone : ∀ l, next none l = none) (inner x : JsonValue) :
    ∀ (c1suf pre tailsegs : List String), pre ≠ [] →
      next (some inner) tailsegs = some x →
      tryPrefixes next [(dotJoin (pre ++ c1suf), inner)] pre (c1suf ++ tailsegs) = some x := by
  intro c1suf
  induction c1suf with
  | nil =>
    intro pre tailsegs _ hhit
    rw [List.append_nil, List.nil_append]
    cases tailsegs <;> rw [tryPrefixes] <;> simp [objGet, hhit]
  | cons s2 c1suf' ih =>
    intro pre tailsegs hpre hhit
    have hne : dotJoin (pre ++ s2 :: c1suf') ≠ dotJoin pre :=
      Ne.symm (dotJoin_ne pre (s2 :: c1suf') hpre (by simp))
    rw [List.cons_append, tryPrefixes]
    simp only [objGet, if_neg hne, hnone]
    rw [show pre ++ s2 :: c1suf' = (pre ++ [s2]) ++ c1suf' by simp]
    exact ih (pre ++ [s2]) tailsegs (by simp) hhit

/-- Flatten of a list of non-empty chunks is empty only for the empty list. -/
theorem flatten_ne_nil_of_chunks {chunks : List (List String)}
    (h : ∀ c ∈ chunks, c ≠ []) (hne : chunks ≠ []) : chunks.flatten ≠ [] := by
  cases chunks with
  | nil => exact absurd rfl hne
  | cons c rest =>
    have hc : c ≠ [] := h c (by simp)
    cases c with
    | nil => exact absurd rfl hc
    | cons s c' => simp

/-- Looking up the concatenated segments in the object nested along the
chunks finds the leaf, given enough fuel. -/
theorem nestChunks_lookupGo :
    ∀ (chunks : List (List String)) (x : JsonValue), chunks ≠ [] →
      (∀ c ∈ chunks, c ≠ []) →
      ∀ fuel : Nat, chunks.flatten.length ≤ fuel →
        lookupGo fuel (some (nestChunks chunks x)) chunks.flatten = some x := by
  intro chunks
  induction chunks with
  | nil => intro x h; exact absurd rfl h
  | cons c1 rest ih =>
    intro x _ hall fuel hfuel
    have hc1 : c1 ≠ [] := hall c1 (by simp)
    obtain ⟨s, c1tail, rfl⟩ : ∃ s c1tail, c1 = s :: c1tail := by
      cases c1 with
      | nil => exact absurd rfl hc1
      | cons s t => exact ⟨s, t, rfl⟩
    have hjoin : ((s :: c1tail) :: rest).flatten = s :: (c1tail ++ rest.flatten) := by simp
    rw [hjoin] at hfuel ⊢
    obtain ⟨f, rfl⟩ : ∃ f, fuel = f + 1 := by
      cases fuel with
      | zero => simp at hfuel
      | succ f => exact ⟨f, rfl⟩
    have hinner : lookupGo f (some (nestChunks rest x)) rest.flatten = some x := by
      cases rest with
      | nil => simpa [nestChunks] using lookupGo_some_nil f x
      | cons r1 rs =>
        apply ih x (by simp) (fun c hc => hall c (by simp [hc]))
        simp only [List.length_cons, List.length_append] at hfuel
        omega
    show lookupGo (f + 1) (some (.obj [(dotJoin (s :: c1tail), nestChunks rest x)]))
        (s :: (c1tail ++ rest.flatten)) = some x
    cases hrem : c1tail ++ rest.flatten with
    | nil =>
      have hc1tail : c1tail = [] := by
        cases c1tail with
        | nil => rfl
        | cons a b => simp at hrem
      have hrest : rest = [] := by
        by_contra hr
        exact flatten_ne_nil_of_chunks (fun c hc => hall c (by simp [hc])) hr
          (by simpa [hc1tail] using hrem)
      subst hc1tail hrest
      show lookupGo (Nat.succ f) (some (.obj [(s, x)])) [s] = some x
      simp [lookupGo, objGet]
    | cons w ws =>
      have hstep :
          lookupGo (Nat.succ f) (some (.obj [(dotJoin (s :: c1tail), nestChunks rest x)]))
            (s :: w :: ws)
          = tryPrefixes (fun o' l' => lookupGo f o' l')
              [(dotJoin (s :: c1tail), nestChunks rest x)] [s] (w :: ws) := rfl
      rw [hstep, ← hrem]
      rw [show (s :: c1tail : List String) = [s] ++ c1tail from rfl]
      exact tryPrefixes_nest (fun o' l' => lookupGo f o' l') (lookupGo_none f)
        (nestChunks rest x) x c1tail [s] rest.flatten (by simp) hinner

/-! ## Lemmas about the spec-modelled quoted-literal state -/

/-- Consuming a quoted-literal body just accumulates it into the span. -/
theorem lexQuotedGo_body {body : List Char} (h : QBody body) :
    ∀ (acc tailcs : List Char),
      lexQuotedGo (body ++ tailcs) acc = lexQuotedGo tailcs (acc ++ body) := by
  induction h with
  | nil => intro acc tailcs; simp
  | esc c rest _ ih =>
    intro acc tailcs
    show lexQuotedGo ('\\' :: c :: (rest ++ tailcs)) acc = _
    rw [lexQuotedGo.eq_def]
    simp only [if_neg (by decide : ¬ ('\\' : Char) = '"'), if_pos rfl]
    rw [ih (acc ++ ['\\', c]) tailcs]
    simp
  | chr c rest hc hq _ ih =>
    intro acc tailcs
    show lexQuotedGo (c :: (rest ++ tailcs)) acc = _
    rw [lexQuotedGo.eq_def]
    simp only [if_neg hq, if_neg hc]
    rw [ih (acc ++ [c]) tailcs]
    simp

/-! ## Claim theorems -/

/-- C1: the claim asserts that every successfully parsed filter executes to
a bool stack of exactly one element.  The code violates it: `not not foo`
parses successfully (stageBoolOp pops the equal-precedence staged `not`
into the steps before any operand), giving the RPN program
`[not, defaultFieldsTermsQuery foo, not]`, whose first step pops an empty
stack — a panic (`none`), on every record.  The empty-filter half of the
claim does hold: a zero-step filter matches every record. -/
theorem C1_stack_invariant_violated :
    NewFilter "" none = some (.ok ⟨[]⟩)
    ∧ (∀ rec : JsonValue, Filter.Match ⟨[]⟩ rec = some true)
    ∧ NewFilter "not not foo" none =
        some (.ok ⟨[.not, .defaultFieldsTermsQuery ["foo"], .not]⟩)
    ∧ (∀ rec : JsonValue,
        Filter.Match ⟨[.not, .defaultFieldsTermsQuery ["foo"], .not]⟩ rec = none) :=
  ⟨rfl, fun _ => rfl, rfl, fun _ => rfl⟩

/-- C2: `a and b or c and d` compiles to the RPN order
a, b, and, c, d, and, or, and evaluating that step list with the four query
steps pushing any booleans a, b, c, d leaves exactly `(a ∧ b) ∨ (c ∧ d)`. -/
theorem C2_rpn_correctness :
    NewFilter "a and b or c and d" none =
      some (.ok ⟨[.defaultFieldsTermsQuery ["a"], .defaultFieldsTermsQuery ["b"], .and,
                  .defaultFieldsTermsQuery ["c"], .defaultFieldsTermsQuery ["d"], .and,
                  .or]⟩)
    ∧ ∀ a b c d : Bool,
        execAssign
          [.defaultFieldsTermsQuery ["a"], .defaultFieldsTermsQuery ["b"], .and,
           .defaultFieldsTermsQuery ["c"], .defaultFieldsTermsQuery ["d"], .and, .or]
          [a, b, c, d] [] = some [(a && b) || (c && d)] :=
  ⟨rfl, by decide⟩

/-- C5: the claim says a DefaultFieldsTermsQuery step pushes the result of
matching the terms against the `message` field with TermsQuery semantics.
The code's `rpnDefaultFieldsTermsQuery.exec` is not implemented: it pushes
false unconditionally, so the compiled query `foo` does not match
`{"message":"foo"}` — although a TermsQuery on `message` with the same term
pushes true on that record. -/
theorem C5_default_fields_pushes_false :
    NewFilter "foo" none = some (.ok ⟨[.defaultFieldsTermsQuery ["foo"]]⟩)
    ∧ Filter.Match ⟨[.defaultFieldsTermsQuery ["foo"]]⟩
        (.obj [("message", .str "foo")]) = some false
    ∧ rpnExec (.termsQuery "message" [⟨"foo", false, []⟩]) []
        (.obj [("message", .str "foo")]) = some [true] :=
  ⟨rfl, rfl, rfl⟩

/-- C6: the claim says `message` is optional in the validity classification.
The code requires it: a record with string `@timestamp`, `ecs.version` and
`log.level` but no `message` is classified invalid, while the same record
with a `message` is valid. -/
theorem C6_message_required :
    isECSLoggingRecord
      (.obj [("log.level", .str "info"), ("@timestamp", .str "2021-01-19T22:51:12.142Z"),
             ("ecs", .obj [("version", .str "1.5.0")]), ("foo", .str "bar")]) = false
    ∧ getStringTop
        (.obj [("log.level", .str "info"), ("@timestamp", .str "2021-01-19T22:51:12.142Z"),
               ("ecs", .obj [("version", .str "1.5.0")]), ("foo", .str "bar")])
        "@timestamp" = some "2021-01-19T22:51:12.142Z"
    ∧ lookupValue
        (some (.obj [("log.level", .str "info"),
                     ("@timestamp", .str "2021-01-19T22:51:12.142Z"),
                     ("ecs", .obj [("version", .str "1.5.0")]), ("foo", .str "bar")]))
        ["ecs", "version"] = some (.str "1.5.0")
    ∧ lookupValue
        (some (.obj [("log.level", .str "info"),
                     ("@timestamp", .str "2021-01-19T22:51:12.142Z"),
                     ("ecs", .obj [("version", .str "1.5.0")]), ("foo", .str "bar")]))
        ["log", "level"] = some (.str "info")
    ∧ isECSLoggingRecord
        (.obj [("log.level", .str "info"), ("@timestamp", .str "2021-01-19T22:51:12.142Z"),
               ("ecs", .obj [("version", .str "1.5.0")]), ("message", .str "hi")]) = true :=
  ⟨rfl, rfl, rfl, rfl, rfl⟩

/-- C7: the claim says a wildcard in a range-query value is rejected at
parse time.  The code compiles `foo < bar*` successfully into an
`rpnLtRangeQuery` whose term is the wildcard term `^bar.*$` — no error
(`parseRangeQuery` has no wildcard check), contradicting the package's own
parse test "error case: no wildcard in range query term". -/
theorem C7_wildcard_range_not_rejected :
    NewFilter "foo < bar*" none =
      some (.ok ⟨[.ltRangeQuery "foo" ⟨"^bar.*$", true, ["bar", ""]⟩ none]⟩)
    ∧ newTerm "bar*" = some ⟨"^bar.*$", true, ["bar", ""]⟩
    ∧ (⟨"^bar.*$", true, ["bar", ""]⟩ : term).Wildcard = true :=
  ⟨rfl, rfl, rfl⟩

/-- C8 counterexample: the claim says that for `foo:(a and *)` the parser
emits a TermsQuery or MatchAllTermsQuery with `*` as an ordinary term and
never an ExistsQuery.  The parser in fact emits exactly an ExistsQuery
step for that input. -/
theorem C8_counterexample :
    NewFilter "foo:(a and *)" none = some (.ok ⟨[.existsQuery "foo"]⟩) :=
  rfl

/-- C8 amended: the exists-on-`*` short-circuit applies inside
parenthesized value groups as well: `foo:(* or b)` also compiles to an
ExistsQuery step, exactly like the unparenthesized `foo:*`; a group without
a bare `*` term still produces the MatchAllTermsQuery/TermsQuery step (a
wildcard term such as `*az` that is not exactly `*` stays an ordinary
term). -/
theorem C8_amended_exists_in_parens :
    NewFilter "foo:(* or b)" none = some (.ok ⟨[.existsQuery "foo"]⟩)
    ∧ NewFilter "foo:*" none = some (.ok ⟨[.existsQuery "foo"]⟩)
    ∧ NewFilter "foo:(a and b)" none =
        some (.ok ⟨[.matchAllTermsQuery "foo" [⟨"a", false, []⟩, ⟨"b", false, []⟩]]⟩)
    ∧ NewFilter "foo:(bar and *az)" none =
        some (.ok ⟨[.matchAllTermsQuery "foo"
          [⟨"bar", false, []⟩, ⟨"^.*az$", true, ["", "az"]⟩]]⟩) :=
  ⟨rfl, rfl, rfl, rfl⟩

/-- C4: range queries on field exactly "log.level" with a non-nil
comparator and a string field value v use the comparator: Gt pushes
less(t, v), Gte pushes ¬less(v, t), Lt pushes less(v, t), Lte pushes
¬less(t, v); and with the reference comparator, `log.level > info` matches
`{"log.level":"error"}` and does not match `{"log.level":"debug"}`. -/
theorem C4_loglevel_range_semantics :
    (∀ (less : LogLevelLessFn) (t : term) (rec : JsonValue) (v : String) (stack : boolStack),
      lookupValue (some rec) (splitOnDot "log.level") = some (.str v) →
        rpnExec (.gtRangeQuery "log.level" t (some less)) stack rec =
            some (less t.Val v :: stack)
        ∧ rpnExec (.gteRangeQuery "log.level" t (some less)) stack rec =
            some ((!(less v t.Val)) :: stack)
        ∧ rpnExec (.ltRangeQuery "log.level" t (some less)) stack rec =
            some (less v t.Val :: stack)
        ∧ rpnExec (.lteRangeQuery "log.level" t (some less)) stack rec =
            some ((!(less t.Val v)) :: stack))
    ∧ NewFilter "log.level > info" (some LogLevelLess) =
        some (.ok ⟨[.gtRangeQuery "log.level" ⟨"info", false, []⟩ (some LogLevelLess)]⟩)
    ∧ Filter.Match ⟨[.gtRangeQuery "log.level" ⟨"info", false, []⟩ (some LogLevelLess)]⟩
        (.obj [("log.level", .str "error")]) = some true
    ∧ Filter.Match ⟨[.gtRangeQuery "log.level" ⟨"info", false, []⟩ (some LogLevelLess)]⟩
        (.obj [("log.level", .str "debug")]) = some false := by
  refine ⟨?_, rfl, rfl, rfl⟩
  intro less t rec v stack h
  refine ⟨?_, ?_, ?_, ?_⟩ <;>
    simp [rpnExec, gtRangeExec, gteRangeExec, ltRangeExec, lteRangeExec, h]

/-- C4 witness: the Gt rule applied at the reference comparator, the term
`info` and the record `{"log.level":"error"}`. -/
theorem C4_loglevel_range_semantics_witness :
    lookupValue (some (.obj [("log.level", .str "error")])) (splitOnDot "log.level") =
        some (.str "error")
    ∧ rpnExec (.gtRangeQuery "log.level" ⟨"info", false, []⟩ (some LogLevelLess)) []
        (.obj [("log.level", .str "error")]) = some (LogLevelLess "info" "error" :: []) :=
  ⟨rfl,
    (C4_loglevel_range_semantics.1 LogLevelLess ⟨"info", false, []⟩
      (.obj [("log.level", .str "error")]) "error" [] rfl).1⟩

/-- C10: a collected unquoted literal of at most 3 bytes whose ASCII
lowercasing is "or"/"and"/"not" is emitted as the corresponding operator
token (so mixed-case forms become operators), and every collected literal
longer than 3 bytes is always an UnquotedLiteral — in particular the
escaped form `\not` (4 bytes). -/
theorem C10_boolop_classification :
    (∀ (pos : Nat) (span : List Char),
      utf8Len span ≤ 3 → String.mk (span.map Char.toLower) = "or" →
        emitLiteral pos span = mkTok .or pos (String.mk span))
    ∧ (∀ (pos : Nat) (span : List Char),
      utf8Len span ≤ 3 → String.mk (span.map Char.toLower) = "and" →
        emitLiteral pos span = mkTok .and pos (String.mk span))
    ∧ (∀ (pos : Nat) (span : List Char),
      utf8Len span ≤ 3 → String.mk (span.map Char.toLower) = "not" →
        emitLiteral pos span = mkTok .not pos (String.mk span))
    ∧ (∀ (pos : Nat) (span : List Char),
      utf8Len span > 3 →
        emitLiteral pos span = mkTok .unquotedLiteral pos (String.mk span))
    ∧ lexTokens "\\not" = [mkTok .unquotedLiteral 0 "\\not", mkTok .eof 4 ""]
    ∧ lexTokens "NOT Or AnD" =
        [mkTok .not 0 "NOT", mkTok .or 4 "Or", mkTok .and 7 "AnD", mkTok .eof 10 ""] := by
  refine ⟨?_, ?_, ?_, ?_, rfl, rfl⟩
  case refine_4 =>
    intro pos span h1
    simp only [emitLiteral, if_pos h1]
  all_goals
    intro pos span h1 h2
    simp only [emitLiteral, if_neg (by omega : ¬ utf8Len span > 3), h2]
    rfl

/-- C10 witness: the mixed-case literal `OR` (2 bytes, ASCII-lowercasing to
"or") is classified as the Or operator token. -/
theorem C10_boolop_classification_witness :
    (utf8Len ['O', 'R'] ≤ 3 ∧ String.mk (['O', 'R'].map Char.toLower) = "or")
    ∧ emitLiteral 0 ['O', 'R'] = mkTok .or 0 (String.mk ['O', 'R']) :=
  ⟨⟨by decide, rfl⟩, C10_boolop_classification.1 0 ['O', 'R'] (by decide) rfl⟩

/-- C3: for every non-empty segment sequence and every partition of it into
dotted chunks, looking up the segments in the object nested along the
partition returns the leaf; a nil object gives absent for every path, and a
non-object gives absent for every non-empty path — absence is an ordinary
`none` result of the total function, never a failure. -/
theorem C3_lookup_partition :
    (∀ (chunks : List (List String)) (x : JsonValue),
      chunks ≠ [] → (∀ c ∈ chunks, c ≠ []) →
        lookupValue (some (nestChunks chunks x)) chunks.flatten = some x)
    ∧ (∀ segs : List String, lookupValue none segs = none)
    ∧ (∀ (v : JsonValue) (segs : List String), segs ≠ [] →
        (∀ kvs, v ≠ .obj kvs) → lookupValue (some v) segs = none) := by
  refine ⟨?_, ?_, ?_⟩
  · intro chunks x h1 h2
    exact nestChunks_lookupGo chunks x h1 h2 _ (Nat.le_succ _)
  · intro segs
    exact lookupGo_none _ _
  · intro v segs hne hnotobj
    cases segs with
    | nil => exact absurd rfl hne
    | cons s rest =>
      cases v with
      | obj kvs => exact absurd rfl (hnotobj kvs)
      | null => rfl
      | bool b => rfl
      | num q => rfl
      | str s' => rfl
      | arr items => rfl

/-- C3 witness: the partition `[a][b.c]` of the path `a.b.c` — the record
`{"a":{"b.c":"d"}}` resolves `["a","b","c"]` to `"d"`; plus the nil-object
and non-object cases at concrete inputs. -/
theorem C3_lookup_partition_witness :
    (([["a"], ["b", "c"]] : List (List String)) ≠ []
      ∧ (∀ c ∈ ([["a"], ["b", "c"]] : List (List String)), c ≠ []))
    ∧ lookupValue (some (nestChunks [["a"], ["b", "c"]] (.str "d")))
        ([["a"], ["b", "c"]] : List (List String)).flatten = some (.str "d")
    ∧ lookupValue none ["a"] = none
    ∧ lookupValue (some (.str "x")) ["a"] = none :=
  ⟨⟨by simp, by decide⟩,
    C3_lookup_partition.1 [["a"], ["b", "c"]] (.str "d") (by simp) (by decide),
    C3_lookup_partition.2.1 ["a"],
    C3_lookup_partition.2.2 (.str "x") ["a"] (by simp) (fun kvs h => by cases h)⟩

/-- C9 counterexample: the claim says every quoted-literal scan that reaches
EOF before the closing `"` emits the Error "unterminated quoted literal".
For the overall input `"foo\` (Quoted-state remainder `foo\`), the scan
instead emits the Error "unterminated character escape" — the backslash has
no following byte to take (this is the behavior the package's lex_test.go
case "error case: unterminated escape in quoted literal" requires). -/
theorem C9_counterexample :
    lexQuotedGo ("foo\\".toList) [] = mkTok .error 0 "unterminated character escape"
    ∧ lexQuotedGo ("foo\\".toList) [] ≠ mkTok .error 0 "unterminated quoted literal" :=
  ⟨rfl, by decide⟩

/-- C9 amended: from the Quoted state, a body of plain bytes and
backslash-escaped bytes followed by the closing `"` emits a QuotedLiteral
token containing the whole span including the surrounding quotes; EOF after
such a body emits the Error "unterminated quoted literal"; EOF immediately
after a backslash emits the Error "unterminated character escape". -/
theorem C9_amended_quoted_state :
    (∀ (body rest : List Char), QBody body →
      lexQuotedGo (body ++ '"' :: rest) [] =
        mkTok .quotedLiteral 0 (String.mk ('"' :: body ++ ['"'])))
    ∧ (∀ body : List Char, QBody body →
      lexQuotedGo body [] = mkTok .error 0 "unterminated quoted literal")
    ∧ (∀ body : List Char, QBody body →
      lexQuotedGo (body ++ ['\\']) [] = mkTok .error 0 "unterminated character escape") := by
  refine ⟨?_, ?_, ?_⟩
  · intro body rest h
    rw [lexQuotedGo_body h [] ('"' :: rest)]
    rw [lexQuotedGo.eq_def]
    simp
  · intro body h
    have := lexQuotedGo_body h [] []
    rw [List.append_nil] at this
    rw [this]
    simp [lexQuotedGo]
  · intro body h
    rw [lexQuotedGo_body h [] ['\\']]
    rw [lexQuotedGo.eq_def]
    simp

/-- C9 witness: the body `bar\"z` (with an escaped inner quote) followed by
the closing quote emits the QuotedLiteral span `"bar\"z"`. -/
theorem C9_amended_quoted_state_witness :
    QBody ['b', 'a', 'r', '\\', '"', 'z']
    ∧ lexQuotedGo (['b', 'a', 'r', '\\', '"', 'z'] ++ '"' :: []) [] =
        mkTok .quotedLiteral 0
          (String.mk ('"' :: ['b', 'a', 'r', '\\', '"', 'z'] ++ ['"'])) := by
  have hb : QBody ['b', 'a', 'r', '\\', '"', 'z'] :=
    .chr _ _ (by decide) (by decide)
      (.chr _ _ (by decide) (by decide)
        (.chr _ _ (by decide) (by decide)
          (.esc _ _ (.chr _ _ (by decide) (by decide) .nil))))
  exact ⟨hb, C9_amended_quoted_state.1 _ [] hb⟩

end Ecslog
